import Mathlib

set_option linter.unusedVariables false

/-! Verification development for the Patent Innovation Radar ingestion and
embedding-sync pipeline.  The definitions below are a shallow embedding of
src/services/api/ingest.py, src/scripts/generate_embeddings.py,
src/scripts/populate_qdrant.py and src/ml/models/ml_services.py.

Modelling conventions:
- Dates are integers (days since an epoch); the ISO "YYYY-MM-DD" strings the
  source passes around compare in the same order as these integers.
- SQL NOW() is an explicit time parameter t.
- Database tables are association lists keyed by their primary keys; the
  ON CONFLICT clauses of the source become explicit merge functions.
- A statement that may raise (conn.execute) is driven by an explicit failure
  oracle saying at which statement of a record an exception is raised.
-/

/-- A JSON field that may be absent, a single scalar, or a list.  The source
coerces such fields with isinstance checks (ingest.py lines 180-186, 203-205,
242-244). -/
inductive JList (α : Type) where
  | absent
  | scalar (a : α)
  | listOf (l : List α)
deriving DecidableEq

/-- Raw assignee entry of a PatentsView record (a JSON object, hence truthy). -/
structure AssigneeRaw where
  assignee_id : Option String
  assignee_name : Option String
  assignee_type : Option String
deriving DecidableEq

/-- Raw inventor entry of a PatentsView record. -/
structure InventorRaw where
  inventor_id : Option String
  inventor_name : Option String
deriving DecidableEq

/-- A raw patent record as load_patents receives it from the API response. -/
structure RawPatent where
  patent_id : Option String
  patent_title : Option String
  patent_abstract : Option String
  patent_num_claims : Option Nat
  patent_date : Option Int
  filing_date : Option Int
  publication_number : Option String
  cpc_code : JList String
  cited_patent_id : JList String
  assignees : JList AssigneeRaw
  inventors : JList InventorRaw
deriving DecidableEq

/-- Python truthiness of an optional string: None and "" are falsy.  Used for
the guards "if not patent_id" (ingest.py:150) and
"if not assignee.get(\x22assignee_id\x22)" (ingest.py:208). -/
def truthyStr : Option String → Option String
  | none => none
  | some s => if s = "" then none else some s

/-- CPC extraction, ingest.py lines 180-186: a list is taken as is, a truthy
scalar becomes a singleton, anything else the empty list. -/
def coerce_cpc : JList String → List String
  | .absent => []
  | .scalar s => if s = "" then [] else [s]
  | .listOf l => l

/-- Scalar-or-list coercion for assignees/inventors, ingest.py lines 203-205
and 242-244.  A scalar JSON object is truthy, so it becomes a singleton. -/
def coerce_list {α : Type} : JList α → List α
  | .absent => []
  | .scalar a => [a]
  | .listOf l => l

/-- Citation count, ingest.py line 198: the length when the field is a list,
otherwise 0. -/
def num_citations_of : JList String → Nat
  | .listOf l => l.length
  | _ => 0

/-- Fallback publication number, ingest.py line 190:
patent.get("publication_number") or "US" + patent_id. -/
def pub_num_of (pid : String) (pn : Option String) : String :=
  match truthyStr pn with
  | some s => s
  | none => "US" ++ pid

/-- Row of the patents table, fields as in the INSERT of ingest.py
lines 158-177. -/
structure PatentRow where
  publication_number : String
  publication_date : Option Int
  filing_date : Option Int
  title : Option String
  abstract : Option String
  num_claims : Option Nat
  primary_cpc : Option String
  cpc_codes : List String
  num_citations : Nat
  raw_data : RawPatent
  ingested_at : Int
  last_updated_at : Option Int
deriving DecidableEq

/-- Row of the assignees table (ingest.py lines 212-220). -/
structure AssigneeRow where
  name : Option String
  type : Option String
  raw_data : AssigneeRaw
  ingested_at : Int
  last_updated_at : Option Int
deriving DecidableEq

/-- Row of the inventors table (ingest.py lines 251-259). -/
structure InventorRow where
  name : Option String
  raw_data : InventorRaw
  ingested_at : Int
  last_updated_at : Option Int
deriving DecidableEq

/-- The relational store: tables as association lists keyed by their primary
keys.  Link tables are keyed by the composite key and carry the position. -/
structure DB where
  patents : List (String × PatentRow)
  assignees : List (String × AssigneeRow)
  inventors : List (String × InventorRow)
  patent_assignees : List ((String × String) × Nat)
  patent_inventors : List ((String × String) × Nat)
deriving DecidableEq

/-- Lookup in an association list by key (first match). -/
def findRow {α β : Type} [DecidableEq α] (k : α) : List (α × β) → Option β
  | [] => none
  | (k2, v) :: rest => if k2 = k then some v else findRow k rest

/-- INSERT ... ON CONFLICT (key) DO UPDATE: insert ins when the key is absent,
otherwise apply upd to the existing row in place. -/
def upsertRow {α β : Type} [DecidableEq α] (k : α) (ins : β) (upd : β → β) :
    List (α × β) → List (α × β)
  | [] => [(k, ins)]
  | (k2, v) :: rest =>
    if k2 = k then (k2, upd v) :: rest else (k2, v) :: upsertRow k ins upd rest

/-- INSERT ... ON CONFLICT DO NOTHING: insert only when the key is absent. -/
def insertIfAbsent {α β : Type} [DecidableEq α] (k : α) (v : β)
    (l : List (α × β)) : List (α × β) :=
  match findRow k l with
  | some _ => l
  | none => l ++ [(k, v)]

/-- The fresh patents row built by the VALUES clause of ingest.py
lines 158-200 at time t. -/
def patentInsertRow (t : Int) (pid : String) (r : RawPatent) : PatentRow :=
  let cpcs := coerce_cpc r.cpc_code
  { publication_number := pub_num_of pid r.publication_number
    publication_date := r.patent_date
    filing_date := r.filing_date
    title := r.patent_title
    abstract := r.patent_abstract
    num_claims := r.patent_num_claims
    primary_cpc := cpcs.head?
    cpc_codes := cpcs
    num_citations := num_citations_of r.cited_patent_id
    raw_data := r
    ingested_at := t
    last_updated_at := none }

/-- The ON CONFLICT (patent_id) DO UPDATE clause of ingest.py lines 172-176:
refresh last_updated_at and raw_data, COALESCE the incoming abstract and
num_claims with the stored values; every other column keeps its old value. -/
def patentConflictUpdate (t : Int) (r : RawPatent) (old : PatentRow) : PatentRow :=
  { old with
    last_updated_at := some t
    raw_data := r
    abstract := r.patent_abstract.orElse fun _ => old.abstract
    num_claims := r.patent_num_claims.orElse fun _ => old.num_claims }

/-- One SQL statement issued by load_patents for a record. -/
inductive Stmt where
  | patentUpsert (pid : String) (r : RawPatent)
  | assigneeUpsert (aid : String) (a : AssigneeRaw)
  | assigneeLink (pid aid : String) (pos : Nat)
  | inventorUpsert (iid : String) (iv : InventorRaw)
  | inventorLink (pid iid : String) (pos : Nat)
deriving DecidableEq

/-- Effect of one statement on the store at time t. -/
def execStmt (t : Int) (db : DB) : Stmt → DB
  | .patentUpsert pid r =>
    let tbl := upsertRow pid (patentInsertRow t pid r) (patentConflictUpdate t r) db.patents
    { db with patents := tbl }
  | .assigneeUpsert aid a =>
    let ins : AssigneeRow :=
      { name := a.assignee_name, type := a.assignee_type, raw_data := a,
        ingested_at := t, last_updated_at := none }
    let tbl := upsertRow aid ins (fun old => { old with last_updated_at := some t }) db.assignees
    { db with assignees := tbl }
  | .assigneeLink pid aid pos =>
    let tbl := insertIfAbsent (pid, aid) pos db.patent_assignees
    { db with patent_assignees := tbl }
  | .inventorUpsert iid iv =>
    let ins : InventorRow :=
      { name := iv.inventor_name, raw_data := iv,
        ingested_at := t, last_updated_at := none }
    let tbl := upsertRow iid ins (fun old => { old with last_updated_at := some t }) db.inventors
    { db with inventors := tbl }
  | .inventorLink pid iid pos =>
    let tbl := insertIfAbsent (pid, iid) pos db.patent_inventors
    { db with patent_inventors := tbl }

/-- Statements of the assignee loop, ingest.py lines 207-239: entries whose
assignee_id is falsy are skipped, the link position is the enumerate index. -/
def assigneeStmts (pid : String) (l : List AssigneeRaw) : List Stmt :=
  (l.enum.map fun p =>
    match truthyStr p.2.assignee_id with
    | none => []
    | some aid => [Stmt.assigneeUpsert aid p.2, Stmt.assigneeLink pid aid p.1]).flatten

/-- Statements of the inventor loop, ingest.py lines 246-277. -/
def inventorStmts (pid : String) (l : List InventorRaw) : List Stmt :=
  (l.enum.map fun p =>
    match truthyStr p.2.inventor_id with
    | none => []
    | some iid => [Stmt.inventorUpsert iid p.2, Stmt.inventorLink pid iid p.1]).flatten

/-- All statements load_patents issues for one record, in source order. -/
def recordStmts (pid : String) (r : RawPatent) : List Stmt :=
  Stmt.patentUpsert pid r ::
    (assigneeStmts pid (coerce_list r.assignees) ++
      inventorStmts pid (coerce_list r.inventors))

/-- The stats dict of load_patents (ingest.py lines 138-143); the error_list
of message strings is log text and is not modelled. -/
structure LoadStats where
  inserted : Nat
  updated : Nat
  errors : Nat
deriving DecidableEq

/-- Observable transaction-level events of one load_patents call. -/
inductive DbEvent where
  | txnBegin
  | txnCommit
  | stmtDone (s : Stmt)
  | recordFailed (i : Nat)
deriving DecidableEq

/-- Execute a list of statements in order, recording an event per statement. -/
def execStmts (t : Int) (db : DB) (stmts : List Stmt) : DB × List DbEvent :=
  stmts.foldl (fun acc s => (execStmt t acc.1 s, acc.2 ++ [DbEvent.stmtDone s]))
    (db, [])

/-- Process one record of the batch (body of the for loop, ingest.py
lines 146-284).  failAt gives the index of the statement at which
conn.execute raises for this record, if any: the statements before it have
taken effect, the exception is caught, errors is incremented and the loop
continues.  A record with falsy patent_id is skipped with no counter change
(lines 150-152); a record whose statements all succeed increments inserted
(line 279). -/
def loadRecord (t : Int) (db : DB) (failAt : Option Nat) (i : Nat)
    (r : RawPatent) (stats : LoadStats) : DB × LoadStats × List DbEvent :=
  match truthyStr r.patent_id with
  | none => (db, stats, [])
  | some pid =>
    let stmts := recordStmts pid r
    match failAt with
    | some k =>
      if k < stmts.length then
        let res := execStmts t db (stmts.take k)
        (res.1, { stats with errors := stats.errors + 1 },
          res.2 ++ [DbEvent.recordFailed i])
      else
        let res := execStmts t db stmts
        (res.1, { stats with inserted := stats.inserted + 1 }, res.2)
    | none =>
      let res := execStmts t db stmts
      (res.1, { stats with inserted := stats.inserted + 1 }, res.2)

/-- The for loop of load_patents over the batch, carrying the record index
for the failure oracle. -/
def loadAux (t : Int) (fails : Nat → Option Nat) (db : DB) (stats : LoadStats)
    (i : Nat) : List RawPatent → DB × LoadStats × List DbEvent
  | [] => (db, stats, [])
  | r :: rest =>
    let step := loadRecord t db (fails i) i r stats
    let next := loadAux t fails step.1 step.2.1 (i + 1) rest
    (next.1, next.2.1, step.2.2 ++ next.2.2)

/-- PatentDataLoader.load_patents, ingest.py lines 133-286.  The whole batch
runs inside a single shared transaction (with self.engine.begin() as conn,
line 145): one txnBegin, the per-record statements, one txnCommit. -/
def load_patents (t : Int) (fails : Nat → Option Nat) (db : DB)
    (batch : List RawPatent) : DB × LoadStats × List DbEvent :=
  let body := loadAux t fails db { inserted := 0, updated := 0, errors := 0 } 0 batch
  (body.1, body.2.1, DbEvent.txnBegin :: body.2.2 ++ [DbEvent.txnCommit])

/-- PatentDataLoader.get_last_ingestion_date, ingest.py lines 288-295:
SELECT MAX(publication_date) FROM patents (NULL dates are ignored by MAX). -/
def get_last_ingestion_date (db : DB) : Option Int :=
  db.patents.foldl
    (fun acc p =>
      match acc, p.2.publication_date with
      | none, d => d
      | some m, none => some m
      | some m, some d => some (max m d))
    none

/-- Aggregated run totals of ingest_patents (ingest.py lines 316-321). -/
structure RunStats where
  total_inserted : Nat
  total_updated : Nat
  total_errors : Nat
  batches_processed : Nat
deriving DecidableEq

/-- The fetch-load while loop of ingest_patents, ingest.py lines 323-354.
pages gives the page the API returns for batch index idx (offset =
idx * batch_size); an absent or empty "patents" key is the empty list.
The fuel argument realises the guard offset < max_batches * batch_size:
starting from fuel = max_batches and idx = 0, fuel = max_batches - idx, and
each iteration advances offset by batch_size, so the loop runs out of fuel
exactly when the guard fails.  fails gives the per-record failure oracle of
each batch. -/
def ingestLoop (t : Int) (fails : Nat → Nat → Option Nat)
    (pages : Nat → List RawPatent) (batch_size : Nat) :
    Nat → Nat → DB → RunStats → RunStats × DB
  | 0, _, db, acc => (acc, db)
  | fuel + 1, idx, db, acc =>
    let patents := pages idx
    if patents.isEmpty then (acc, db)
    else
      let res := load_patents t (fails idx) db patents
      let acc2 : RunStats :=
        { total_inserted := acc.total_inserted + res.2.1.inserted
          total_updated := acc.total_updated + res.2.1.updated
          total_errors := acc.total_errors + res.2.1.errors
          batches_processed := acc.batches_processed + 1 }
      if patents.length < batch_size then (acc2, res.1)
      else ingestLoop t fails pages batch_size fuel (idx + 1) res.1 acc2

/-- ingest_patents, ingest.py lines 298-357.  The since lower bound is
computed at line 313 as datetime.now() - timedelta(days=since_days) and
passed to every fetch; the api argument maps a since date and a batch index
to the page the client returns.  batch_size = 1000 and max_batches = 10 as
at lines 325-326.  The first component of the result is the since date the
run used. -/
def ingest_patents (now since_days : Int) (t : Int)
    (api : Int → Nat → List RawPatent) (fails : Nat → Nat → Option Nat)
    (db : DB) : Int × RunStats × DB :=
  let since := now - since_days
  let res := ingestLoop t fails (api since) 1000 10 0 db
    { total_inserted := 0, total_updated := 0, total_errors := 0, batches_processed := 0 }
  (since, res.1, res.2)

/-- Modelled from the spec (section 4.5): the fetch lower bound the spec
prescribes, since = max(persisted_watermark, now - since_days), where the
persisted watermark is the value of get_last_ingestion_date.  This
definition follows the words of the spec and exists only to be compared
with the since value ingest_patents actually computes. -/
def spec_since (db : DB) (now since_days : Int) : Int :=
  match get_last_ingestion_date db with
  | some w => max w (now - since_days)
  | none => now - since_days

/-- Number of batches the while loop of ingest_patents processes:
counts pages until an empty page (not processed), a short page (processed,
then stop) or the end of the fuel (the max_batches cap). -/
def stopCount (pages : Nat → List RawPatent) (batch_size : Nat) :
    Nat → Nat → Nat
  | 0, _ => 0
  | fuel + 1, idx =>
    if (pages idx).isEmpty then 0
    else if (pages idx).length < batch_size then 1
    else 1 + stopCount pages batch_size fuel (idx + 1)

/-- PatentsViewClient rate limiter, ingest.py lines 40-46.  last is the
stored last_request_time, now the wall clock at entry; the result is the
wall clock when _rate_limit returns, which is also the new
last_request_time: the caller sleeps for wait = 1/rate - (now - last)
whenever that is positive. -/
def rate_limit_time (rate : ℚ) (last now : ℚ) : ℚ :=
  if 0 < 1 / rate - (now - last) then now + (1 / rate - (now - last)) else now

/-- Completion times of a sequence of fetch calls arriving at the given
wall-clock instants, threading last_request_time through the limiter. -/
def call_times (rate : ℚ) : ℚ → List ℚ → List ℚ
  | _, [] => []
  | last, a :: rest =>
    let done := rate_limit_time rate last a
    done :: call_times rate done rest

/-- Outcome of one HTTP attempt inside fetch_patents.  status c models a
completed HTTP response with that status code; raise_for_status
(ingest.py:114) raises HTTPError for 4xx and 5xx.  Network errors raise
requests.exceptions.ConnectionError and timeouts requests.exceptions.Timeout;
all three exception types are subclasses of
requests.exceptions.RequestException, the tuple the backoff decorator at
ingest.py lines 48-53 catches. -/
inductive AttemptOutcome where
  | ok
  | connError
  | timeoutErr
  | status (code : Nat)
deriving DecidableEq

/-- Whether the attempt raises an exception caught by the backoff decorator
(every exception fetch_patents raises is such an exception). -/
def attempt_raises : AttemptOutcome → Bool
  | .ok => false
  | .connError => true
  | .timeoutErr => true
  | .status c => decide (400 ≤ c) && decide (c < 600)

/-- Result of a fetch_patents call under the backoff decorator: either the
response of the first non-raising attempt together with the number of
attempts made, or exhaustion after max_tries raising attempts. -/
inductive FetchResult where
  | success (attempts : Nat)
  | exhausted (attempts : Nat)
deriving DecidableEq

/-- The retry loop of backoff.on_exception with max_tries total attempts:
attempt i runs; if it raises and budget remains, the next attempt runs
after the backoff delay, otherwise the exception propagates. -/
def retryFrom (oracle : Nat → AttemptOutcome) (i : Nat) : Nat → FetchResult
  | 0 => FetchResult.exhausted i
  | rem + 1 =>
    if attempt_raises (oracle i) then
      if rem = 0 then FetchResult.exhausted (i + 1)
      else retryFrom oracle (i + 1) rem
    else FetchResult.success (i + 1)

/-- PatentsViewClient.fetch_patents under its decorator
backoff.on_exception(backoff.expo, (RequestException, Timeout), max_tries=3,
factor=2), ingest.py lines 48-115. -/
def fetch_patents (oracle : Nat → AttemptOutcome) : FetchResult :=
  retryFrom oracle 0 3

/-- One embedding produced by generate_embeddings_batch
(generate_embeddings.py lines 86-112), keyed by patent_id. -/
structure EmbRecord where
  patent_id : String
  embedding : List Int
deriving DecidableEq

/-- A point written to the Qdrant collection. -/
structure QPoint where
  id : Nat
  vector : List Int
  payload_patent_id : String
deriving DecidableEq

/-- store_embeddings_qdrant, generate_embeddings.py lines 157-165: the point
id is the enumerate index of the record inside this run's batch. -/
def qdrant_points (data : List EmbRecord) : List QPoint :=
  data.enum.map fun p =>
    { id := p.1, vector := p.2.embedding, payload_patent_id := p.2.patent_id }

/-- Qdrant upsert semantics: a point replaces any existing point with the
same id (the collection is an association list keyed by point id). -/
def qdrant_upsert (store : List (Nat × QPoint)) (points : List QPoint) :
    List (Nat × QPoint) :=
  points.foldl (fun st p => upsertRow p.id p (fun _ => p) st) store

/-- EmbeddingService.store_embeddings, ml_services.py lines 119-153: the
same enumerate-index point ids, recorded as (qdrant point id, patent_id). -/
def ml_services_point_ids (embeddings : List (String × List Int)) :
    List (Nat × String) :=
  embeddings.enum.map fun p => (p.1, p.2.1)

/-- QdrantManager.populate_qdrant, populate_qdrant.py lines 128-139: the
same enumerate-index point ids over rows loaded from the database. -/
def populate_qdrant_point_ids (rows : List (String × List Int)) :
    List (Nat × String) :=
  rows.enum.map fun p => (p.1, p.2.1)

/-- A patents row as the embedding-sync selection reads it
(generate_embeddings.py lines 68-74). -/
structure PatentMeta where
  patent_id : String
  title : Option String
  abstract : Option String
  filing_date : Int
deriving DecidableEq

/-- State of the relational store as the embedding-sync script sees it:
the patents table and the embeddings table (rows keyed by patent_id, value
the stored embedding_vector). -/
structure SyncDB where
  patents : List PatentMeta
  embeddings : List (String × List Int)
deriving DecidableEq

/-- Insertion into a list sorted by filing_date descending. -/
def insertByFiling (p : PatentMeta) : List PatentMeta → List PatentMeta
  | [] => [p]
  | q :: rest =>
    if q.filing_date ≤ p.filing_date then p :: q :: rest
    else q :: insertByFiling p rest

/-- ORDER BY p.filing_date DESC. -/
def sortByFilingDesc (l : List PatentMeta) : List PatentMeta :=
  l.foldr insertByFiling []

/-- get_patents_needing_embeddings, generate_embeddings.py lines 64-84:
patents with no embeddings row (LEFT JOIN ... WHERE e.patent_id IS NULL),
ordered by filing_date descending, optionally limited. -/
def get_patents_needing_embeddings (db : SyncDB) (limit : Option Nat) :
    List PatentMeta :=
  let missing := db.patents.filter fun p => (findRow p.patent_id db.embeddings).isNone
  let sorted := sortByFilingDesc missing
  match limit with
  | some n => sorted.take n
  | none => sorted

/-- The text generate_embeddings_batch embeds, generate_embeddings.py
line 92: the abstract when truthy, otherwise the title. -/
def text_for_embedding (p : PatentMeta) : Option String :=
  match truthyStr p.abstract with
  | some a => some a
  | none => p.title

/-- generate_embeddings_batch, generate_embeddings.py lines 86-112, with the
opaque model.encode capability given as embedFn. -/
def generate_embeddings_batch (embedFn : Option String → List Int)
    (ps : List PatentMeta) : List EmbRecord :=
  ps.map fun p => { patent_id := p.patent_id, embedding := embedFn (text_for_embedding p) }

/-- store_embeddings_postgresql, generate_embeddings.py lines 114-135:
INSERT ... ON CONFLICT (patent_id) DO UPDATE SET embedding_vector = EXCLUDED,
followed by conn.commit(). -/
def store_embeddings_postgresql (db : SyncDB) (data : List EmbRecord) : SyncDB :=
  let tbl := data.foldl
    (fun tbl e => upsertRow e.patent_id e.embedding (fun _ => e.embedding) tbl)
    db.embeddings
  { db with embeddings := tbl }

/-- Result of one embedding-sync invocation: the relational store, the
Qdrant collection, and whether the script finished without raising. -/
structure SyncOutcome where
  db : SyncDB
  qdrant : List (Nat × QPoint)
  okFlag : Bool
deriving DecidableEq

/-- The main flow of generate_embeddings.py (lines 197-255): select patents
with no embeddings row, embed them, commit the rows to PostgreSQL, then
write the points to Qdrant.  qdrant_ok = false models the Qdrant write
raising: the PostgreSQL rows are already committed (line 130 ran before the
Qdrant call at line 239), the Qdrant collection is unchanged, and the script
exits with an error (sys.exit(1) at line 255). -/
def embedding_sync_run (embedFn : Option String → List Int) (qdrant_ok : Bool)
    (db : SyncDB) (qstore : List (Nat × QPoint)) (limit : Option Nat) :
    SyncOutcome :=
  let selected := get_patents_needing_embeddings db limit
  if selected.isEmpty then { db := db, qdrant := qstore, okFlag := true }
  else
    let data := generate_embeddings_batch embedFn selected
    let db2 := store_embeddings_postgresql db data
    if qdrant_ok then
      { db := db2, qdrant := qdrant_upsert qstore (qdrant_points data), okFlag := true }
    else
      { db := db2, qdrant := qstore, okFlag := false }

/-- A raw record with every field absent (used as a base for samples). -/
def rawBase : RawPatent :=
  { patent_id := none, patent_title := none, patent_abstract := none,
    patent_num_claims := none, patent_date := none, filing_date := none,
    publication_number := none, cpc_code := JList.absent,
    cited_patent_id := JList.absent, assignees := JList.absent,
    inventors := JList.absent }

/-- Sample assignee entry. -/
def sampleAssignee : AssigneeRaw :=
  { assignee_id := some "A1", assignee_name := some "Acme", assignee_type := none }

/-- Sample record P1 carrying one assignee. -/
def rawP1 : RawPatent :=
  { rawBase with patent_id := some "P1", assignees := JList.listOf [sampleAssignee] }

/-- Sample record P2 with no assignees or inventors. -/
def rawP2 : RawPatent := { rawBase with patent_id := some "P2" }

/-- Sample record P4 with no assignees or inventors. -/
def rawP4 : RawPatent := { rawBase with patent_id := some "P4" }

/-- The empty relational store. -/
def emptyDB : DB :=
  { patents := [], assignees := [], inventors := [],
    patent_assignees := [], patent_inventors := [] }

/-- Failure oracle for the C1 scenario: record 0 raises at its second
statement (the assignee upsert, after its patent row was written); every
other record succeeds. -/
def failsC1 : Nat → Option Nat := fun i => if i = 0 then some 1 else none

/-- Previously stored record P3 with a non-null abstract and num_claims. -/
def rawOldP3 : RawPatent :=
  { rawBase with patent_id := some "P3", patent_abstract := some "x", patent_num_claims := some 3 }

/-- The stored row for P3. -/
def oldRowP3 : PatentRow := patentInsertRow 0 "P3" rawOldP3

/-- A store already holding P3. -/
def dbOld : DB :=
  { patents := [("P3", oldRowP3)], assignees := [], inventors := [],
    patent_assignees := [], patent_inventors := [] }

/-- A new fetch of P3 whose abstract and num_claims are null. -/
def rawNullP3 : RawPatent := { rawBase with patent_id := some "P3" }

/-- A store already holding P2. -/
def dbP2 : DB :=
  { patents := [("P2", patentInsertRow 0 "P2" rawP2)], assignees := [],
    inventors := [], patent_assignees := [], patent_inventors := [] }

/-- A store whose latest committed publication date is day 99. -/
def dbW : DB :=
  { patents := [("P1", patentInsertRow 0 "P1"
      { rawBase with patent_id := some "P1", patent_date := some 99 })],
    assignees := [], inventors := [], patent_assignees := [],
    patent_inventors := [] }

/-- Sample embedding records for the vector-id scenario. -/
def embA : EmbRecord := { patent_id := "A", embedding := [1] }

/-- Second sample embedding record. -/
def embB : EmbRecord := { patent_id := "B", embedding := [2] }

/-- A patents row for the embedding-sync scenario. -/
def pMeta : PatentMeta :=
  { patent_id := "P1", title := some "t", abstract := some "a", filing_date := 5 }

/-- A sync store holding one patent and no embeddings rows. -/
def syncDB0 : SyncDB := { patents := [pMeta], embeddings := [] }

/-- A fixed embedding capability for the scenarios. -/
def embedOne : Option String → List Int := fun _ => [1]

theorem execStmts_fst (t : Int) :
    ∀ (stmts : List Stmt) (db : DB) (evs : List DbEvent),
      ((stmts.foldl
        (fun acc s => (execStmt t acc.1 s, acc.2 ++ [DbEvent.stmtDone s]))
        (db, evs)).1) = stmts.foldl (execStmt t) db := by
  intro stmts
  induction stmts with
  | nil => intro db evs; rfl
  | cons s rest ih => intro db evs; simp [List.foldl_cons, ih]

theorem execStmt_patents_of_not_patent (t : Int) (db : DB) (s : Stmt)
    (h : ∀ pid r, s ≠ Stmt.patentUpsert pid r) :
    (execStmt t db s).patents = db.patents := by
  cases s with
  | patentUpsert pid r => exact absurd rfl (h pid r)
  | assigneeUpsert aid a => rfl
  | assigneeLink pid aid pos => rfl
  | inventorUpsert iid iv => rfl
  | inventorLink pid iid pos => rfl

theorem foldl_execStmt_patents (t : Int) :
    ∀ (stmts : List Stmt) (db : DB),
      (∀ s ∈ stmts, ∀ pid r, s ≠ Stmt.patentUpsert pid r) →
      (stmts.foldl (execStmt t) db).patents = db.patents := by
  intro stmts
  induction stmts with
  | nil => intro db _; rfl
  | cons s rest ih =>
    intro db h
    rw [List.foldl_cons, ih _ (fun s2 hs2 => h s2 (List.mem_cons_of_mem s hs2)),
      execStmt_patents_of_not_patent t db s (h s (List.mem_cons_self s rest))]

theorem assigneeStmts_not_patent (pid : String) (l : List AssigneeRaw) :
    ∀ s ∈ assigneeStmts pid l, ∀ pid2 r, s ≠ Stmt.patentUpsert pid2 r := by
  intro s hs pid2 r
  simp only [assigneeStmts, List.mem_flatten, List.mem_map] at hs
  obtain ⟨x, ⟨p, hp, hx⟩, hsx⟩ := hs
  subst hx
  rcases h : truthyStr p.2.assignee_id with _ | aid <;> rw [h] at hsx <;>
    simp at hsx
  rcases hsx with h1 | h1 <;> subst h1 <;> intro hcon <;> cases hcon

theorem inventorStmts_not_patent (pid : String) (l : List InventorRaw) :
    ∀ s ∈ inventorStmts pid l, ∀ pid2 r, s ≠ Stmt.patentUpsert pid2 r := by
  intro s hs pid2 r
  simp only [inventorStmts, List.mem_flatten, List.mem_map] at hs
  obtain ⟨x, ⟨p, hp, hx⟩, hsx⟩ := hs
  subst hx
  rcases h : truthyStr p.2.inventor_id with _ | iid <;> rw [h] at hsx <;>
    simp at hsx
  rcases hsx with h1 | h1 <;> subst h1 <;> intro hcon <;> cases hcon

theorem findRow_upsertRow_self {α β : Type} [DecidableEq α]
    (k : α) (ins : β) (upd : β → β) :
    ∀ l : List (α × β),
      findRow k (upsertRow k ins upd l) =
        some (match findRow k l with | some v => upd v | none => ins) := by
  intro l
  induction l with
  | nil => simp [upsertRow, findRow]
  | cons p rest ih =>
    obtain ⟨k2, v⟩ := p
    by_cases h : k2 = k <;> simp [upsertRow, findRow, h, ih]

theorem findRow_upsertRow_ne {α β : Type} [DecidableEq α]
    {k k3 : α} (ins : β) (upd : β → β) (h : k3 ≠ k) :
    ∀ l : List (α × β), findRow k3 (upsertRow k ins upd l) = findRow k3 l := by
  have hk : ¬k = k3 := fun hh => h hh.symm
  intro l
  induction l with
  | nil => simp [upsertRow, findRow, hk]
  | cons p rest ih =>
    obtain ⟨k2, v⟩ := p
    by_cases h2 : k2 = k
    · subst h2
      simp [upsertRow, findRow, hk, ih]
    · simp [upsertRow, findRow, h2, ih]

theorem loadRecord_updated (t : Int) (db : DB) (failAt : Option Nat) (i : Nat)
    (r : RawPatent) (stats : LoadStats) :
    ((loadRecord t db failAt i r stats).2.1).updated = stats.updated := by
  unfold loadRecord
  rcases truthyStr r.patent_id with _ | pid
  · rfl
  · rcases failAt with _ | k
    · rfl
    · by_cases hk : k < (recordStmts pid r).length <;> simp [hk]

theorem loadAux_updated (t : Int) (fails : Nat → Option Nat) :
    ∀ (batch : List RawPatent) (db : DB) (stats : LoadStats) (i : Nat),
      ((loadAux t fails db stats i batch).2.1).updated = stats.updated := by
  intro batch
  induction batch with
  | nil => intro db stats i; rfl
  | cons r rest ih =>
    intro db stats i
    simp [loadAux, ih, loadRecord_updated]

theorem foldl_upsert_isSome :
    ∀ (data : List EmbRecord) (tbl : List (String × List Int)) (k : String),
      (findRow k (data.foldl
        (fun tbl e => upsertRow e.patent_id e.embedding (fun _ => e.embedding) tbl)
        tbl)).isSome ↔
      (findRow k tbl).isSome ∨ k ∈ data.map EmbRecord.patent_id := by
  intro data
  induction data with
  | nil => intro tbl k; simp
  | cons e rest ih =>
    intro tbl k
    rw [List.foldl_cons, ih]
    by_cases hk : k = e.patent_id
    · subst hk
      simp [findRow_upsertRow_self]
    · rw [findRow_upsertRow_ne _ _ hk]
      simp [hk]

theorem mem_insertByFiling (p q : PatentMeta) :
    ∀ l : List PatentMeta, q ∈ insertByFiling p l ↔ q = p ∨ q ∈ l := by
  intro l
  induction l with
  | nil => simp [insertByFiling]
  | cons r rest ih =>
    by_cases h : r.filing_date ≤ p.filing_date
    · simp [insertByFiling, h]
    · simp [insertByFiling, h, ih]
      tauto

theorem mem_sortByFilingDesc (q : PatentMeta) :
    ∀ l : List PatentMeta, q ∈ sortByFilingDesc l ↔ q ∈ l := by
  have aux : ∀ (l acc : List PatentMeta),
      q ∈ List.foldr insertByFiling acc l ↔ q ∈ l ∨ q ∈ acc := by
    intro l
    induction l with
    | nil => intro acc; simp
    | cons r rest ih =>
      intro acc
      simp only [List.foldr_cons, mem_insertByFiling, ih, List.mem_cons]
      tauto
  intro l
  rw [sortByFilingDesc, aux]
  simp

theorem mem_selection (db : SyncDB) (limit : Option Nat) (p : PatentMeta)
    (hp : p ∈ get_patents_needing_embeddings db limit) :
    p ∈ db.patents ∧ (findRow p.patent_id db.embeddings).isNone := by
  have hsorted : p ∈ sortByFilingDesc
      (db.patents.filter fun q => (findRow q.patent_id db.embeddings).isNone) := by
    unfold get_patents_needing_embeddings at hp
    rcases limit with _ | n
    · exact hp
    · exact List.take_subset n _ hp
  rw [mem_sortByFilingDesc] at hsorted
  have := List.mem_filter.mp hsorted
  exact ⟨this.1, by simpa using this.2⟩

theorem stopCount_le (pages : Nat → List RawPatent) (bs : Nat) :
    ∀ (fuel idx : Nat), stopCount pages bs fuel idx ≤ fuel := by
  intro fuel
  induction fuel with
  | zero => intro idx; simp [stopCount]
  | succ fuel ih =>
    intro idx
    simp only [stopCount]
    split
    · omega
    · split
      · omega
      · have := ih (idx + 1); omega

theorem ingestLoop_batches (t : Int) (fails : Nat → Nat → Option Nat)
    (pages : Nat → List RawPatent) (bs : Nat) :
    ∀ (fuel idx : Nat) (db : DB) (acc : RunStats),
      ((ingestLoop t fails pages bs fuel idx db acc).1).batches_processed =
        acc.batches_processed + stopCount pages bs fuel idx := by
  intro fuel
  induction fuel with
  | zero => intro idx db acc; simp [ingestLoop, stopCount]
  | succ fuel ih =>
    intro idx db acc
    by_cases h1 : (pages idx).isEmpty = true
    · simp [ingestLoop, stopCount, h1]
    · by_cases h2 : (pages idx).length < bs
      · simp [ingestLoop, stopCount, h1, h2]
      · simp [ingestLoop, stopCount, h1, h2, ih]
        omega

theorem stopCount_char (pages : Nat → List RawPatent) (bs : Nat) :
    ∀ (fuel idx : Nat),
      (stopCount pages bs fuel idx = fuel ∨
        pages (idx + stopCount pages bs fuel idx) = [] ∨
        (0 < stopCount pages bs fuel idx ∧
          (pages (idx + stopCount pages bs fuel idx - 1)).length < bs)) ∧
      (∀ i, i < stopCount pages bs fuel idx → pages (idx + i) ≠ []) ∧
      (∀ i, i + 1 < stopCount pages bs fuel idx → bs ≤ (pages (idx + i)).length) := by
  intro fuel
  induction fuel with
  | zero =>
    intro idx
    refine ⟨Or.inl rfl, ?_, ?_⟩ <;> intro i hi <;> simp [stopCount] at hi
  | succ fuel ih =>
    intro idx
    by_cases h1 : (pages idx).isEmpty = true
    · have hnil : pages idx = [] := by simpa using h1
      have hz : stopCount pages bs (fuel + 1) idx = 0 := by simp [stopCount, h1]
      refine ⟨Or.inr (Or.inl ?_), ?_, ?_⟩
      · rw [hz]; simpa using hnil
      · intro i hi; rw [hz] at hi; omega
      · intro i hi; rw [hz] at hi; omega
    · have hne : pages idx ≠ [] := by
        intro hc; rw [hc] at h1; exact h1 rfl
      by_cases h2 : (pages idx).length < bs
      · have h1eq : stopCount pages bs (fuel + 1) idx = 1 := by simp [stopCount, h1, h2]
        refine ⟨Or.inr (Or.inr ⟨by omega, ?_⟩), ?_, ?_⟩
        · rw [h1eq]; simpa using h2
        · intro i hi
          rw [h1eq] at hi
          have : i = 0 := by omega
          subst this
          simpa using hne
        · intro i hi; rw [h1eq] at hi; omega
      · obtain ⟨ihd, ih2, ih3⟩ := ih (idx + 1)
        have hn : stopCount pages bs (fuel + 1) idx =
            1 + stopCount pages bs fuel (idx + 1) := by
          simp [stopCount, h1, h2]
        refine ⟨?_, ?_, ?_⟩
        · rcases ihd with hfe | hemp | ⟨hpos, hshort⟩
          · left; omega
          · right; left
            rw [hn]
            have heq : idx + (1 + stopCount pages bs fuel (idx + 1)) =
                idx + 1 + stopCount pages bs fuel (idx + 1) := by omega
            rw [heq]
            exact hemp
          · right; right
            refine ⟨by omega, ?_⟩
            rw [hn]
            have heq : idx + (1 + stopCount pages bs fuel (idx + 1)) - 1 =
                idx + 1 + stopCount pages bs fuel (idx + 1) - 1 := by omega
            rw [heq]
            exact hshort
        · intro i hi
          rw [hn] at hi
          rcases i with _ | j
          · simpa using hne
          · have hj : j < stopCount pages bs fuel (idx + 1) := by omega
            have := ih2 j hj
            have heq : idx + (j + 1) = idx + 1 + j := by omega
            rw [heq]
            exact this
        · intro i hi
          rw [hn] at hi
          rcases i with _ | j
          · simpa using Nat.le_of_not_lt h2
          · have hj : j + 1 < stopCount pages bs fuel (idx + 1) := by omega
            have := ih3 j hj
            have heq : idx + (j + 1) = idx + 1 + j := by omega
            rw [heq]
            exact this

theorem rate_limit_time_ge (rate last now : ℚ) :
    last + 1 / rate ≤ rate_limit_time rate last now := by
  unfold rate_limit_time
  split
  · linarith
  · rename_i h
    have : 1 / rate - (now - last) ≤ 0 := le_of_not_lt h
    linarith

theorem call_times_chain (rate : ℚ) :
    ∀ (as : List ℚ) (last : ℚ),
      List.Chain' (fun x y => x + 1 / rate ≤ y) (call_times rate last as) := by
  intro as
  induction as with
  | nil => intro last; simp [call_times]
  | cons a rest ih =>
    intro last
    have e1 : call_times rate last (a :: rest) =
        rate_limit_time rate last a ::
          call_times rate (rate_limit_time rate last a) rest := rfl
    rw [e1, List.chain'_cons']
    refine ⟨?_, ih _⟩
    intro b hb
    cases rest with
    | nil => simp [call_times] at hb
    | cons c r2 =>
      have e2 : call_times rate (rate_limit_time rate last a) (c :: r2) =
          rate_limit_time rate (rate_limit_time rate last a) c ::
            call_times rate
              (rate_limit_time rate (rate_limit_time rate last a) c) r2 := rfl
      rw [e2] at hb
      simp at hb
      rw [← hb]
      exact rate_limit_time_ge rate _ c

theorem call_times_last_ge (rate : ℚ) :
    ∀ (as : List ℚ) (last tN : ℚ), as ≠ [] →
      (call_times rate last as).getLast? = some tN →
      last + as.length * (1 / rate) ≤ tN := by
  intro as
  induction as with
  | nil => intro last tN h; exact absurd rfl h
  | cons a rest ih =>
    intro last tN _ hlast
    cases rest with
    | nil =>
      have e1 : call_times rate last [a] = [rate_limit_time rate last a] := rfl
      rw [e1] at hlast
      simp at hlast
      have h3 := rate_limit_time_ge rate last a
      rw [← hlast]
      have hone : ((([a] : List ℚ).length : ℚ)) = 1 := by simp
      rw [hone, one_mul]
      exact h3
    | cons b r2 =>
      have e1 : call_times rate last (a :: b :: r2) =
          rate_limit_time rate last a ::
            call_times rate (rate_limit_time rate last a) (b :: r2) := rfl
      have e2 : call_times rate (rate_limit_time rate last a) (b :: r2) =
          rate_limit_time rate (rate_limit_time rate last a) b ::
            call_times rate
              (rate_limit_time rate (rate_limit_time rate last a) b) r2 := rfl
      rw [e1, e2, List.getLast?_cons_cons] at hlast
      rw [← e2] at hlast
      have h2 := ih (rate_limit_time rate last a) tN (by simp) hlast
      have h3 := rate_limit_time_ge rate last a
      have hlen : (((a :: b :: r2).length : ℚ)) = ((b :: r2).length : ℚ) + 1 := by
        rw [List.length_cons]
        push_cast
        ring
      rw [hlen, add_mul, one_mul]
      linarith

/-- C1: the claim states that each record of a batch executes inside its own
transaction and that a failure rolls back only that record's writes.  The
code runs the entire batch inside one shared engine.begin() transaction
(ingest.py:145).  Evaluating load_patents on a two-record batch whose first
record raises at its second statement (after its patent row was written)
shows: exactly one transaction begin and one commit for the whole batch, the
failure is counted as an error, and the partial writes of the failed record
(its patent row) persist in the committed store instead of being rolled
back. -/
theorem c1_shared_transaction_not_per_record :
    (((load_patents 7 failsC1 emptyDB [rawP1, rawP2]).2.2).count DbEvent.txnBegin = 1 ∧
      ((load_patents 7 failsC1 emptyDB [rawP1, rawP2]).2.2).count DbEvent.txnCommit = 1) ∧
    (load_patents 7 failsC1 emptyDB [rawP1, rawP2]).2.1 =
      { inserted := 1, updated := 0, errors := 1 } ∧
    findRow "P1" (load_patents 7 failsC1 emptyDB [rawP1, rawP2]).1.patents =
      some (patentInsertRow 7 "P1" rawP1) ∧
    findRow "P2" (load_patents 7 failsC1 emptyDB [rawP1, rawP2]).1.patents =
      some (patentInsertRow 7 "P2" rawP2) := by
  refine ⟨⟨?_, ?_⟩, ?_, ?_, ?_⟩ <;> decide

/-- C2: the claim states that the vector point id is a deterministic
function of patent_id, injective across patents, so re-runs never overwrite
unrelated points.  store_embeddings_qdrant assigns id = the enumerate index
of the record in the run (generate_embeddings.py:159-164), as do
EmbeddingService.store_embeddings (ml_services.py:125-131) and
QdrantManager.populate_qdrant (populate_qdrant.py:130-139).  Evaluating the
code: a run over patents A, B gives B the point id 1, while a later run over
B alone gives B the point id 0 (the id is not a function of patent_id), and
upserting the second run over the first overwrites the point that belonged
to the unrelated patent A, leaving two points carrying B. -/
theorem c2_vector_id_is_run_sequence_number :
    qdrant_points [embA, embB] =
      [{ id := 0, vector := [1], payload_patent_id := "A" },
        { id := 1, vector := [2], payload_patent_id := "B" }] ∧
    qdrant_points [embB] = [{ id := 0, vector := [2], payload_patent_id := "B" }] ∧
    qdrant_upsert (qdrant_upsert [] (qdrant_points [embA, embB])) (qdrant_points [embB]) =
      [(0, { id := 0, vector := [2], payload_patent_id := "B" }),
        (1, { id := 1, vector := [2], payload_patent_id := "B" })] ∧
    ml_services_point_ids [("A", [1]), ("B", [2])] = [(0, "A"), (1, "B")] ∧
    populate_qdrant_point_ids [("B", [2])] = [(0, "B")] := by
  refine ⟨?_, ?_, ?_, ?_, ?_⟩ <;> decide

/-- C3 counterexample: the claim states that an HTTP 4xx response other than
429 returns immediately without any retry attempt.  raise_for_status turns a
404 into an HTTPError, a subclass of RequestException, which the backoff
decorator catches and retries: with a first attempt answering 404 and a
second answering 200, fetch_patents succeeds after two attempts, so the 404
was retried. -/
theorem c3_counterexample_404_is_retried :
    fetch_patents
      (fun i => if i = 0 then AttemptOutcome.status 404 else AttemptOutcome.ok) =
      FetchResult.success 2 := by
  decide

/-- C3 amended: network errors, timeouts and every HTTP error status
(4xx including 404 and 429, and 5xx) raise exceptions the backoff decorator
catches, and all of them are retried uniformly up to max_tries = 3 total
attempts; no failure class returns without retry, and after three raising
attempts the exception propagates. -/
theorem c3_all_failures_retried_up_to_three_attempts
    (oracle : Nat → AttemptOutcome) :
    attempt_raises (AttemptOutcome.status 404) = true ∧
    attempt_raises (AttemptOutcome.status 429) = true ∧
    attempt_raises (AttemptOutcome.status 500) = true ∧
    attempt_raises AttemptOutcome.connError = true ∧
    attempt_raises AttemptOutcome.timeoutErr = true ∧
    attempt_raises AttemptOutcome.ok = false ∧
    fetch_patents oracle =
      (if attempt_raises (oracle 0) = false then FetchResult.success 1
        else if attempt_raises (oracle 1) = false then FetchResult.success 2
        else if attempt_raises (oracle 2) = false then FetchResult.success 3
        else FetchResult.exhausted 3) := by
  refine ⟨by decide, by decide, by decide, by decide, by decide, by decide, ?_⟩
  by_cases h0 : attempt_raises (oracle 0) <;>
    by_cases h1 : attempt_raises (oracle 1) <;>
      by_cases h2 : attempt_raises (oracle 2) <;>
        simp [fetch_patents, retryFrom, h0, h1, h2]

/-- C4 counterexample: the claim states that on a vector-index write failure
the metadata row stays pending and the patent is selected again by the next
invocation.  In the code the embeddings row is committed to PostgreSQL
before the Qdrant write (generate_embeddings.py:130 runs before line 239),
there is no sync_state column, and the selection takes only patents with no
embeddings row: after a run whose Qdrant write fails, patent P1 has a
committed embeddings row, the vector index is still empty, and the next
selection is empty, so P1 is never retried. -/
theorem c4_counterexample_failed_sync_not_retried :
    (embedding_sync_run embedOne false syncDB0 [] none).okFlag = false ∧
    findRow "P1" (embedding_sync_run embedOne false syncDB0 [] none).db.embeddings =
      some [1] ∧
    (embedding_sync_run embedOne false syncDB0 [] none).qdrant = [] ∧
    get_patents_needing_embeddings
      (embedding_sync_run embedOne false syncDB0 [] none).db none = [] := by
  refine ⟨?_, ?_, ?_, ?_⟩ <;> decide

/-- C4 amended: for every patent selected by an embedding-sync invocation
whose vector-index write fails, the metadata row is nevertheless committed
before the failure, the vector index is unchanged, the script exits with an
error, and the patent is excluded from the selection of every later
invocation, because the selection takes exactly the patents with no
embeddings row. -/
theorem c4_metadata_committed_before_vector_write
    (embedFn : Option String → List Int) (db : SyncDB)
    (qstore : List (Nat × QPoint)) (limit : Option Nat) (p : PatentMeta)
    (hp : p ∈ get_patents_needing_embeddings db limit) :
    (embedding_sync_run embedFn false db qstore limit).okFlag = false ∧
    (embedding_sync_run embedFn false db qstore limit).qdrant = qstore ∧
    (findRow p.patent_id
      (embedding_sync_run embedFn false db qstore limit).db.embeddings).isSome ∧
    ∀ (limit2 : Option Nat) (q : PatentMeta),
      q ∈ get_patents_needing_embeddings
        (embedding_sync_run embedFn false db qstore limit).db limit2 →
      q.patent_id ≠ p.patent_id := by
  have hne : get_patents_needing_embeddings db limit ≠ [] := by
    intro hc
    rw [hc] at hp
    cases hp
  have hemp : (get_patents_needing_embeddings db limit).isEmpty = false := by
    cases h : get_patents_needing_embeddings db limit
    · exact absurd h hne
    · rfl
  have hrun : embedding_sync_run embedFn false db qstore limit =
      { db := store_embeddings_postgresql db
          (generate_embeddings_batch embedFn (get_patents_needing_embeddings db limit)),
        qdrant := qstore, okFlag := false } := by
    rw [embedding_sync_run, hemp]
    rfl
  have hsome : (findRow p.patent_id
      (store_embeddings_postgresql db
        (generate_embeddings_batch embedFn
          (get_patents_needing_embeddings db limit))).embeddings).isSome := by
    rw [store_embeddings_postgresql]
    rw [foldl_upsert_isSome]
    right
    simp only [generate_embeddings_batch, List.map_map]
    exact List.mem_map.mpr ⟨p, hp, rfl⟩
  refine ⟨by rw [hrun], by rw [hrun], by rw [hrun]; exact hsome, ?_⟩
  intro limit2 q hq hcon
  have hq2 := mem_selection _ limit2 q hq
  rw [hrun] at hq2
  have := hq2.2
  rw [hcon] at this
  rw [Option.isNone_iff_eq_none] at this
  rw [this] at hsome
  cases hsome

/-- C4 witness: the amended theorem applied to the concrete store holding
only P1, discharging the selection hypothesis. -/
theorem c4_witness :
    pMeta ∈ get_patents_needing_embeddings syncDB0 none ∧
    (findRow pMeta.patent_id
      (embedding_sync_run embedOne false syncDB0 [] none).db.embeddings).isSome :=
  ⟨by decide,
    (c4_metadata_committed_before_vector_write embedOne syncDB0 [] none pMeta
      (by decide)).2.2.1⟩

/-- C5 counterexample: the claim states that the fetch lower bound is
since = max(persisted_watermark, now - since_days).  ingest_patents computes
since = now - since_days (ingest.py:313) and never calls
get_last_ingestion_date: on a store whose latest committed publication date
is day 99, a run at now = 100 with since_days = 7 uses since = 93, not the
spec value max(99, 93) = 99. -/
theorem c5_counterexample_watermark_ignored :
    (ingest_patents 100 7 0 (fun _ _ => []) (fun _ _ => none) dbW).1 = 93 ∧
    get_last_ingestion_date dbW = some 99 ∧
    spec_since dbW 100 7 = 99 ∧
    (ingest_patents 100 7 0 (fun _ _ => []) (fun _ _ => none) dbW).1 ≠
      spec_since dbW 100 7 := by
  refine ⟨?_, ?_, ?_, ?_⟩ <;> decide

/-- C5 amended: at the start of every ingestion run the fetch lower bound is
since = now - since_days, computed without consulting the store: it is the
same for any two stores, and whenever the persisted watermark
(get_last_ingestion_date) is more recent than now - since_days the run
fetches from strictly before the watermark rather than from it. -/
theorem c5_since_is_now_minus_days (now since_days t : Int)
    (api : Int → Nat → List RawPatent) (fails : Nat → Nat → Option Nat)
    (db db2 : DB) :
    (ingest_patents now since_days t api fails db).1 = now - since_days ∧
    (ingest_patents now since_days t api fails db).1 =
      (ingest_patents now since_days t api fails db2).1 ∧
    (∀ w, get_last_ingestion_date db = some w → now - since_days < w →
      (ingest_patents now since_days t api fails db).1 < w) := by
  refine ⟨rfl, rfl, ?_⟩
  intro w hw hlt
  exact hlt

/-- C5 witness: the amended theorem applied at now = 100, since_days = 7 and
the store whose watermark is day 99. -/
theorem c5_witness :
    get_last_ingestion_date dbW = some 99 ∧ (100 : Int) - 7 < 99 ∧
    (ingest_patents 100 7 0 (fun _ _ => []) (fun _ _ => none) dbW).1 < 99 :=
  ⟨by decide, by decide,
    (c5_since_is_now_minus_days 100 7 0 (fun _ _ => []) (fun _ _ => none)
      dbW dbW).2.2 99 (by decide) (by decide)⟩

/-- C6: for a patent already stored, a subsequent load of the same patent_id
applies the ON CONFLICT merge: a null incoming abstract (num_claims) leaves
the stored non-null value unchanged, while raw_data and last_updated_at are
refreshed unconditionally. -/
theorem c6_non_regression_merge (db : DB) (t : Int) (r : RawPatent)
    (pid : String) (old : PatentRow)
    (hid : truthyStr r.patent_id = some pid)
    (hold : findRow pid db.patents = some old) :
    findRow pid (load_patents t (fun _ => none) db [r]).1.patents =
      some (patentConflictUpdate t r old) ∧
    (r.patent_abstract = none → ∀ a, old.abstract = some a →
      (patentConflictUpdate t r old).abstract = some a) ∧
    (r.patent_num_claims = none → ∀ n, old.num_claims = some n →
      (patentConflictUpdate t r old).num_claims = some n) ∧
    (patentConflictUpdate t r old).raw_data = r ∧
    (patentConflictUpdate t r old).last_updated_at = some t := by
  have hdb : (load_patents t (fun _ => none) db [r]).1 =
      (recordStmts pid r).foldl (execStmt t) db := by
    simp [load_patents, loadAux, loadRecord, hid, execStmts, execStmts_fst]
  refine ⟨?_, ?_, ?_, rfl, rfl⟩
  · rw [hdb, recordStmts, List.foldl_cons]
    rw [foldl_execStmt_patents t _ _ ?side]
    case side =>
      intro s hs
      rcases List.mem_append.mp hs with h | h
      · exact assigneeStmts_not_patent _ _ s h
      · exact inventorStmts_not_patent _ _ s h
    show findRow pid
      (upsertRow pid (patentInsertRow t pid r) (patentConflictUpdate t r) db.patents) =
      some (patentConflictUpdate t r old)
    rw [findRow_upsertRow_self, hold]
  · intro hnull a ha
    simp [patentConflictUpdate, hnull, Option.orElse, ha]
  · intro hnull n hn
    simp [patentConflictUpdate, hnull, Option.orElse, hn]

/-- C6 witness: the theorem applied to a store holding P3 with a non-null
abstract and num_claims and a new fetch of P3 whose abstract and num_claims
are null. -/
theorem c6_witness :
    truthyStr rawNullP3.patent_id = some "P3" ∧
    findRow "P3" dbOld.patents = some oldRowP3 ∧
    findRow "P3" (load_patents 7 (fun _ => none) dbOld [rawNullP3]).1.patents =
      some (patentConflictUpdate 7 rawNullP3 oldRowP3) :=
  ⟨by decide, by decide,
    (c6_non_regression_merge dbOld 7 rawNullP3 "P3" oldRowP3
      (by decide) (by decide)).1⟩

/-- C7: the fetch-load loop terminates (ingestLoop is total, with fuel
realising the guard offset < max_batches * batch_size), and the number n of
batches it processes is characterised exactly by the stop conditions of the
claim: the run stops with n = max_batches (safety cap reached), or because
the page fetched after the n processed batches is empty, or because the last
processed batch was shorter than the requested page size; before that, every
processed page is non-empty and every page except possibly the last has full
length. -/
theorem c7_loop_stop_conditions (t : Int) (fails : Nat → Nat → Option Nat)
    (pages : Nat → List RawPatent) (batch_size max_batches : Nat) (db : DB)
    (hbs : 0 < batch_size) (n : Nat)
    (hn : n = ((ingestLoop t fails pages batch_size max_batches 0 db
      { total_inserted := 0, total_updated := 0, total_errors := 0,
        batches_processed := 0 }).1).batches_processed) :
    n ≤ max_batches ∧
    (n = max_batches ∨ pages n = [] ∨
      (0 < n ∧ (pages (n - 1)).length < batch_size)) ∧
    (∀ i, i < n → pages i ≠ []) ∧
    (∀ i, i + 1 < n → batch_size ≤ (pages i).length) := by
  have hb := ingestLoop_batches t fails pages batch_size max_batches 0 db
    { total_inserted := 0, total_updated := 0, total_errors := 0,
      batches_processed := 0 }
  rw [hb] at hn
  have hn2 : n = stopCount pages batch_size max_batches 0 := by simpa using hn
  obtain ⟨hd, h2, h3⟩ := stopCount_char pages batch_size max_batches 0
  simp only [Nat.zero_add] at hd h2 h3
  rw [← hn2] at hd h2 h3
  refine ⟨?_, hd, h2, h3⟩
  rw [hn2]
  exact stopCount_le pages batch_size max_batches 0

/-- C7 witness: the theorem applied to a run whose first page holds one
record and whose second page is empty, with the hypotheses discharged by
evaluation. -/
theorem c7_witness :
    (0 < 1000 ∧
      1 = ((ingestLoop 0 (fun _ _ => none)
        (fun i => if i = 0 then [rawP2] else []) 1000 10 0 emptyDB
        { total_inserted := 0, total_updated := 0, total_errors := 0,
          batches_processed := 0 }).1).batches_processed) ∧
    1 ≤ 10 :=
  ⟨⟨by decide, by decide⟩,
    (c7_loop_stop_conditions 0 (fun _ _ => none)
      (fun i => if i = 0 then [rawP2] else []) 1000 10 emptyDB (by decide) 1
      (by decide)).1⟩

/-- C8: the rate limiter keeps consecutive fetch-call completion times at
least 1/rate apart, whatever the arrival instants, so the completion times
form a chain with minimum gap 1/rate and N calls span at least
(N - 1)/rate from the first to the last. -/
theorem c8_min_interval_between_calls (rate last : ℚ) (arrivals : List ℚ)
    (hr : 0 < rate) :
    List.Chain' (fun x y => x + 1 / rate ≤ y) (call_times rate last arrivals) ∧
    ∀ t0 tN, (call_times rate last arrivals).head? = some t0 →
      (call_times rate last arrivals).getLast? = some tN →
      t0 + ((arrivals.length : ℚ) - 1) * (1 / rate) ≤ tN := by
  refine ⟨call_times_chain rate arrivals last, ?_⟩
  intro t0 tN h0 hN
  cases arrivals with
  | nil => simp [call_times] at h0
  | cons a rest =>
    have e1 : call_times rate last (a :: rest) =
        rate_limit_time rate last a ::
          call_times rate (rate_limit_time rate last a) rest := rfl
    rw [e1] at h0 hN
    simp at h0
    cases rest with
    | nil =>
      simp [call_times] at hN
      rw [← h0, ← hN]
      norm_num
    | cons b r2 =>
      have e2 : call_times rate (rate_limit_time rate last a) (b :: r2) =
          rate_limit_time rate (rate_limit_time rate last a) b ::
            call_times rate
              (rate_limit_time rate (rate_limit_time rate last a) b) r2 := rfl
      rw [e2, List.getLast?_cons_cons, ← e2] at hN
      have h2 := call_times_last_ge rate (b :: r2)
        (rate_limit_time rate last a) tN (by simp) hN
      have hlen : (((a :: b :: r2).length : ℚ)) = ((b :: r2).length : ℚ) + 1 := by
        rw [List.length_cons]
        push_cast
        ring
      rw [← h0, hlen]
      have hexp : (((b :: r2).length : ℚ) + 1 - 1) * (1 / rate) =
          ((b :: r2).length : ℚ) * (1 / rate) := by ring
      rw [hexp]
      linarith

/-- C8 witness: the theorem applied at rate 2 with two calls arriving at
time 0. -/
theorem c8_witness :
    (0 : ℚ) < 2 ∧
    List.Chain' (fun x y => x + 1 / 2 ≤ y) (call_times 2 0 [0, 0]) :=
  ⟨by norm_num, (c8_min_interval_between_calls 2 0 [0, 0] (by norm_num)).1⟩

/-- C9 counterexample: the claim states that a dropped record (missing
patent_id) is counted and visible in the returned statistics as a skipped
count, with a 3-record batch yielding inserted = 2, skipped = 1.  The code
skips such a record with a bare continue (ingest.py:150-152): the returned
statistics of the 3-record batch are identical to those of the 2-record
batch without the dropped record, namely inserted = 2, updated = 0,
errors = 0, and no counter records the drop. -/
theorem c9_counterexample_drop_invisible_in_stats :
    (load_patents 7 (fun _ => none) emptyDB [rawP2, rawBase, rawP4]).2.1 =
      (load_patents 7 (fun _ => none) emptyDB [rawP2, rawP4]).2.1 ∧
    (load_patents 7 (fun _ => none) emptyDB [rawP2, rawBase, rawP4]).2.1 =
      { inserted := 2, updated := 0, errors := 0 } := by
  refine ⟨?_, ?_⟩ <;> decide

/-- C9 amended: a raw record whose patent_id is missing (or empty) is
dropped without being written to the store and without failing the batch,
but the drop is not counted anywhere: the loader state after processing the
record equals the state obtained by never seeing it, so the returned
statistics carry no skipped count (they track only inserted, updated and
errors). -/
theorem c9_missing_id_dropped_uncounted (t : Int) (fails : Nat → Option Nat)
    (db : DB) (stats : LoadStats) (i : Nat) (r : RawPatent)
    (rest : List RawPatent) (h : truthyStr r.patent_id = none) :
    loadAux t fails db stats i (r :: rest) =
      loadAux t fails db stats (i + 1) rest := by
  simp [loadAux, loadRecord, h]

/-- C9 witness: the amended theorem applied to the record with no
patent_id. -/
theorem c9_witness :
    truthyStr rawBase.patent_id = none ∧
    loadAux 7 (fun _ => none) emptyDB
        { inserted := 0, updated := 0, errors := 0 } 0 [rawBase] =
      loadAux 7 (fun _ => none) emptyDB
        { inserted := 0, updated := 0, errors := 0 } 1 [] :=
  ⟨by decide,
    c9_missing_id_dropped_uncounted 7 (fun _ => none) emptyDB
      { inserted := 0, updated := 0, errors := 0 } 0 rawBase [] (by decide)⟩

/-- C10: the updated counter of load_patents is never incremented on any
path (the returned statistics always have updated = 0), and a record whose
statements all succeed increments inserted even when the patent row already
existed and the write was a conflict-update. -/
theorem c10_updated_never_incremented (t : Int) (fails : Nat → Option Nat)
    (db : DB) (batch : List RawPatent) :
    ((load_patents t fails db batch).2.1).updated = 0 ∧
    ∀ (r : RawPatent) (pid : String), truthyStr r.patent_id = some pid →
      (findRow pid db.patents).isSome →
      ((load_patents t (fun _ => none) db [r]).2.1).inserted = 1 := by
  constructor
  · simp [load_patents, loadAux_updated]
  · intro r pid hid hsome
    simp [load_patents, loadAux, loadRecord, hid]

/-- C10 witness: the theorem applied to a store already holding P2 and a new
load of P2 (a conflict-update), discharging the hypotheses by evaluation. -/
theorem c10_witness :
    truthyStr rawP2.patent_id = some "P2" ∧
    (findRow "P2" dbP2.patents).isSome ∧
    ((load_patents 7 (fun _ => none) dbP2 [rawP2]).2.1).inserted = 1 :=
  ⟨by decide, by decide,
    (c10_updated_never_incremented 7 (fun _ => none) dbP2 [rawP2]).2
      rawP2 "P2" (by decide) (by decide)⟩
